import Mathlib

/-!
Shallow embedding of the BSDE least-squares Monte-Carlo option pricer
(`mclsq.py`) and verification of its stated properties.

Floating-point matrices become matrices over `ℚ`.  The external numerical
routines of numpy/scipy (`np.exp`, `np.linalg.lstsq`, `norm.ppf`,
`np.sqrt`) are abstract function parameters of the embedded definitions;
the analytic facts a property needs about them (e.g. that `np.linalg.lstsq`
returns an exact solution of a consistent linear system, in exact
arithmetic) are explicit hypotheses of the corresponding theorems.
Randomness is injected: the Gaussian increment matrices `dW` are inputs.
-/

abbrev Vec (M : ℕ) := Fin M → ℚ

/-- Type of the external least-squares solver `np.linalg.lstsq` as the code
uses it: it receives the square Gram matrix `A = X'X` and a right-hand side
and returns a coefficient vector. -/
abbrev LstsqFun (d : ℕ) := Matrix (Fin d) (Fin d) ℚ → (Fin d → ℚ) → Fin d → ℚ

/-- np.mean of a length-M vector of per-path values. -/
def npMean {M : ℕ} (v : Vec M) : ℚ := (∑ m, v m) / M

/-- np.mean of the batch array (a Python list/1-D array of scalars). -/
def npMeanL (l : List ℚ) : ℚ := l.sum / l.length

/-- Population variance, the square of np.std (numpy divides by the length,
not by length - 1). -/
def npVar (l : List ℚ) : ℚ := (l.map (fun x => (x - npMeanL l) ^ 2)).sum / l.length

/-- np.min of a one-dimensional array with second positional argument 0,
i.e. np.amin(v, axis=0): the least entry, a scalar. -/
def npMin : {M : ℕ} → Vec M → ℚ
  | 0, _ => 0
  | _ + 1, v => Finset.univ.inf' Finset.univ_nonempty v

/-- Python round(x, 4): rounding to 4 decimal digits.  (Python rounds exact
half-way ties to even; `round` rounds them up.  No claim exercises a tie.) -/
def round4 (q : ℚ) : ℚ := (round (q * 10000) : ℤ) / 10000

/-- The k-th Laguerre polynomial, the value computed by
np.polynomial.laguerre.Laguerre.basis(k), via the standard recurrence. -/
def laguerre : ℕ → ℚ → ℚ
  | 0, _ => 1
  | 1, x => 1 - x
  | n + 2, x =>
      ((2 * (n : ℚ) + 3 - x) * laguerre (n + 1) x - ((n : ℚ) + 1) * laguerre n x) / ((n : ℚ) + 2)

/-- `BSDEOptionPricingEuropean._generate_regression`, value part: the
M×(degree+1) design matrix whose column k holds the k-th Laguerre
polynomial evaluated at each entry of the price vector `S`. -/
def generate_regression (degree : ℕ) {M : ℕ} (S : Vec M) :
    Matrix (Fin M) (Fin (degree + 1)) ℚ :=
  Matrix.of fun m k => laguerre k (S m)

/-- `BSDEOptionPricingEuropean._generate_regression`, guard part: the degree
range check executed on every call, before the basis matrix is built. -/
def generate_regression_check (degree : ℤ) : Except String Unit :=
  if degree > 20 ∨ degree < 1 then
    Except.error "Invalid degree on Polynomial basis, choose between 1 and 10"
  else Except.ok ()

/-- Python exception kinds raised by the embedded code. -/
inductive PyError
  | typeError : String → PyError
  | valueError : String → PyError
  | attributeError : String → PyError
deriving DecidableEq, Repr

/-- Python str.lower(), embedded as characterwise lowercasing of the
string's characters (adequate for the ASCII payoff-kind strings). -/
def pyLower (s : String) : String := ⟨s.data.map Char.toLower⟩

/-- `BSDEOptionPricingEuropean._get_opt_payoff`: case-insensitive
normalization of the payoff-kind string; anything other than call/put
raises a TypeError. -/
def get_opt_payoff (opt_payoff : String) : Except PyError String :=
  if pyLower opt_payoff = "call" then Except.ok "call"
  else if pyLower opt_payoff = "put" then Except.ok "put"
  else Except.error (PyError.typeError "Invalid option type! It should be call or put")

/-- `BSDEOptionPricingEuropean.__init__`, value checks in source order.
The isinstance type checks are captured by the types of the arguments
(`r` and `lower` are only type-checked in the source, so no value condition
appears for them here); after the numeric checks the constructor normalizes
the payoff string via `_get_opt_payoff`. -/
def init_validate (S0 K T : ℚ) (r : ℚ) (sigma : ℚ) (N M degree : ℤ)
    (option_payoff : String) : Except PyError Unit :=
  if S0 ≤ 0 then Except.error (PyError.valueError "S0 must be positive.")
  else if K ≤ 0 then Except.error (PyError.valueError "K must be positive.")
  else if T ≤ 0 then Except.error (PyError.valueError "T must be positive.")
  else if sigma ≤ 0 then Except.error (PyError.valueError "sigma must be positive.")
  else if N ≤ 0 then Except.error (PyError.valueError "N must be a positive integer.")
  else if M ≤ 0 then Except.error (PyError.valueError "M must be a positive integer.")
  else if degree < 0 then
    Except.error (PyError.valueError "degree must be a non-negative integer.")
  else
    match get_opt_payoff option_payoff with
    | Except.error e => Except.error e
    | Except.ok _ => Except.ok ()

/-- `BSDEOptionPricingEuropeanSpread._payoff_func`, call branch: long one
call at K, short two calls at K2. -/
def eus_spread_payoff (K K2 S : ℚ) : ℚ := max (S - K) 0 - 2 * max (S - K2) 0

/-- `BSDEOptionPricingAmericanSpread._payoff_func`, call branch: long one
call at K, short one call at K2. -/
def ams_spread_payoff (K K2 S : ℚ) : ℚ := max (S - K) 0 - max (S - K2) 0

/-- `BSDEOptionPricingEuropeanSpread._payoff_func` with its error behaviour:
for any stored payoff other than "call" the source enters the else branch,
whose ValueError message interpolates `self.option_type`; that attribute is
never defined on any class of the module, so Python raises AttributeError
while building the message and the intended ValueError is never raised. -/
def eus_payoff_func (option_payoff : String) (K K2 S : ℚ) : Except PyError ℚ :=
  if option_payoff = "call" then Except.ok (eus_spread_payoff K K2 S)
  else Except.error (PyError.attributeError
    "BSDEOptionPricingEuropeanSpread object has no attribute option_type")

/-- `BSDEOptionPricingAmericanSpread._payoff_func` with its error behaviour;
same nonexistent-attribute access as the European spread payoff. -/
def ams_payoff_func (option_payoff : String) (K K2 S : ℚ) : Except PyError ℚ :=
  if option_payoff = "call" then Except.ok (ams_spread_payoff K K2 S)
  else Except.error (PyError.attributeError
    "BSDEOptionPricingAmericanSpread object has no attribute option_type")

/-- `BSDEOptionPricingEuropean._generate_stock_paths`: the price matrix.
`dW` holds the M×(N+1) Gaussian increments actually drawn by the source;
`np.cumsum` of the log-returns runs over all N+1 columns, and the zero
column prepended by `np.hstack` makes the result an M×(N+2) matrix. -/
def generate_stock_paths (rexp : ℚ → ℚ) (S0 mu sigma dt : ℚ) {M N : ℕ}
    (dW : Fin M → Fin (N + 1) → ℚ) : Fin M → Fin (N + 2) → ℚ :=
  fun m j =>
    Fin.cases (S0 * rexp 0)
      (fun n => S0 * rexp (∑ k ∈ Finset.Iic n, ((mu - sigma ^ 2 / 2) * dt + sigma * dW m k)))
      j

/-- One backward step of `BSDEOptionPricingEuropean._bsde_solver` (loop body,
lines 99-103): regress the next value column onto the Laguerre basis of the
current prices via the normal equations and discount. -/
def eu_step (degree : ℕ) {M : ℕ} (lstsq : LstsqFun (degree + 1)) (disc : ℚ)
    (s y : Vec M) : Vec M :=
  let X := generate_regression degree s
  let A := X.transpose * X
  let alpha := lstsq A (X.transpose.mulVec y)
  fun m => X.mulVec alpha m * disc

/-- Value columns of the European backward sweep, counted by the number k of
completed backward steps: index 0 is the terminal column
`Y[:, N] = payoff(S[:, N+1])` (both arrays are indexed with -1 in the
source), and step k+1 applies `eu_step` at time index `i = N - k`, exactly
the iteration order `for i in range(N, 0, -1)`. -/
def eu_cols (degree : ℕ) {M N : ℕ} (lstsq : LstsqFun (degree + 1))
    (rexp : ℚ → ℚ) (r dt : ℚ) (payoff : ℚ → ℚ)
    (S : Fin M → Fin (N + 2) → ℚ) : ℕ → Vec M
  | 0 => fun m => payoff (S m (Fin.last (N + 1)))
  | k + 1 =>
      eu_step degree lstsq (rexp (-r * dt)) (fun m => S m ⟨N - k, by omega⟩)
        (eu_cols degree lstsq rexp r dt payoff S k)

/-- Column `Y[:, i]` of the European value process after the backward sweep
has passed it (column i is produced after N - i steps). -/
def eu_Y (degree : ℕ) {M N : ℕ} (lstsq : LstsqFun (degree + 1))
    (rexp : ℚ → ℚ) (r dt : ℚ) (payoff : ℚ → ℚ)
    (S : Fin M → Fin (N + 2) → ℚ) (i : ℕ) : Vec M :=
  eu_cols degree lstsq rexp r dt payoff S (N - i)

/-- One batch of `BSDEOptionPricingEuropean._bsde_solver`: simulate paths
from the injected increments, run the backward sweep, and record
`np.mean(Y[:, 0])`. -/
def eu_batch (degree : ℕ) {M N : ℕ} (lstsq : LstsqFun (degree + 1))
    (rexp : ℚ → ℚ) (S0 r mu sigma dt : ℚ) (payoff : ℚ → ℚ)
    (dW : Fin M → Fin (N + 1) → ℚ) : ℚ :=
  npMean (eu_cols degree lstsq rexp r dt payoff
    (generate_stock_paths rexp S0 mu sigma dt dW) N)

/-- `BSDEOptionPricingEuropean._bsde_solver`: one batch per injected
increment matrix; returns the batch array `Y0_samples` and, literally as in
the source, the scalar 0 as second component. -/
def eu_bsde_solver (degree : ℕ) {M N : ℕ} (lstsq : LstsqFun (degree + 1))
    (rexp : ℚ → ℚ) (S0 r mu sigma dt : ℚ) (payoff : ℚ → ℚ)
    (dWs : List (Fin M → Fin (N + 1) → ℚ)) : List ℚ × ℚ :=
  (dWs.map (eu_batch degree lstsq rexp S0 r mu sigma dt payoff), 0)

/-- One backward step of `BSDEOptionPricingAmerican._bsde_solver` (lines
171-176): as the European step, then the pointwise maximum with the
immediate exercise value `payoff(S[:, i])`. -/
def am_step (degree : ℕ) {M : ℕ} (lstsq : LstsqFun (degree + 1)) (disc : ℚ)
    (payoff : ℚ → ℚ) (s y : Vec M) : Vec M :=
  let X := generate_regression degree s
  let A := X.transpose * X
  let alpha := lstsq A (X.transpose.mulVec y)
  fun m => max (X.mulVec alpha m * disc) (payoff (s m))

/-- Value columns of the American backward sweep, indexed like `eu_cols`. -/
def am_cols (degree : ℕ) {M N : ℕ} (lstsq : LstsqFun (degree + 1))
    (rexp : ℚ → ℚ) (r dt : ℚ) (payoff : ℚ → ℚ)
    (S : Fin M → Fin (N + 2) → ℚ) : ℕ → Vec M
  | 0 => fun m => payoff (S m (Fin.last (N + 1)))
  | k + 1 =>
      am_step degree lstsq (rexp (-r * dt)) payoff (fun m => S m ⟨N - k, by omega⟩)
        (am_cols degree lstsq rexp r dt payoff S k)

/-- One batch of `BSDEOptionPricingAmerican._bsde_solver`. -/
def am_batch (degree : ℕ) {M N : ℕ} (lstsq : LstsqFun (degree + 1))
    (rexp : ℚ → ℚ) (S0 r mu sigma dt : ℚ) (payoff : ℚ → ℚ)
    (dW : Fin M → Fin (N + 1) → ℚ) : ℚ :=
  npMean (am_cols degree lstsq rexp r dt payoff
    (generate_stock_paths rexp S0 mu sigma dt dW) N)

/-- `BSDEOptionPricingAmerican._bsde_solver`. -/
def am_bsde_solver (degree : ℕ) {M N : ℕ} (lstsq : LstsqFun (degree + 1))
    (rexp : ℚ → ℚ) (S0 r mu sigma dt : ℚ) (payoff : ℚ → ℚ)
    (dWs : List (Fin M → Fin (N + 1) → ℚ)) : List ℚ × ℚ :=
  (dWs.map (am_batch degree lstsq rexp S0 r mu sigma dt payoff), 0)

/-- `lamb = (mu - r)/sigma`, the market price of risk set in `__init__`. -/
def lamb_of (mu r sigma : ℚ) : ℚ := (mu - r) / sigma

/-- The right-hand side assigned inside the Picard loop of both spread
solvers (lines 215 and 255): note `np.min(..., 0)` is the scalar minimum
over the path axis, broadcast to every path. -/
def spread_driver {M : ℕ} (r lamb R sigma dt : ℚ) (E y Z : Vec M) : Vec M :=
  fun m =>
    E m + (-r * y m + lamb * Z m - (R - r) * npMin (fun j => y j - Z j / sigma)) * dt

/-- The claim's reading of the generator term, following the words of the
claim (`Modelled from the spec`: "the elementwise minimum of the vector
Y[:, i] - Z[:, i]/sigma with the zero vector"); kept separate from
`spread_driver`, which embeds what the source computes. -/
def spread_driver_pointwise {M : ℕ} (r lamb R sigma dt : ℚ) (E y Z : Vec M) : Vec M :=
  fun m => E m + (-r * y m + lamb * Z m - (R - r) * min (y m - Z m / sigma) 0) * dt

/-- One backward step of `BSDEOptionPricingEuropeanSpread._bsde_solver`
(lines 208-215): two regressions on the same Gram matrix (value and hedge),
then the Picard loop, each pass of which overwrites `Y[:, i-1]` with
`spread_driver` applied to the same `E`, `Y[:, i]`, `Z[:, i]`; the column
starts as the zeros `np.zeros` put there.  Returns the new value column and
the hedge column `Z[:, i]`. -/
def eus_step (degree : ℕ) {M : ℕ} (lstsq : LstsqFun (degree + 1))
    (r lamb R sigma dt : ℚ) (picard : ℕ) (s dWi y : Vec M) : Vec M × Vec M :=
  let X := generate_regression degree s
  let A := X.transpose * X
  let alpha_y := lstsq A (X.transpose.mulVec y)
  let alpha_z := lstsq A (X.transpose.mulVec fun m => y m * dWi m)
  let E := X.mulVec alpha_y
  let Z := X.mulVec alpha_z
  (Nat.iterate (fun _ => spread_driver r lamb R sigma dt E y Z) picard (fun _ => 0), Z)

/-- One backward step of `BSDEOptionPricingAmericanSpread._bsde_solver`
(lines 247-256): the European spread step followed by the early-exercise
floor `np.maximum(exercise_value, Y[:, i-1])`. -/
def ams_step (degree : ℕ) {M : ℕ} (lstsq : LstsqFun (degree + 1))
    (r lamb R sigma dt : ℚ) (picard : ℕ) (payoff : ℚ → ℚ)
    (s dWi y : Vec M) : Vec M × Vec M :=
  let p := eus_step degree lstsq r lamb R sigma dt picard s dWi y
  ((fun m => max (payoff (s m)) (p.1 m)), p.2)

/-- Backward sweep of the European spread solver: state after k steps is
the pair (current value column, most recently written hedge column); the
hedge matrix starts as `np.zeros`. -/
def eus_run (degree : ℕ) {M N : ℕ} (lstsq : LstsqFun (degree + 1))
    (r lamb R sigma dt : ℚ) (picard : ℕ) (payoff : ℚ → ℚ)
    (S : Fin M → Fin (N + 2) → ℚ) (dW : Fin M → Fin (N + 1) → ℚ) :
    ℕ → Vec M × Vec M
  | 0 => ((fun m => payoff (S m (Fin.last (N + 1)))), fun _ => 0)
  | k + 1 =>
      eus_step degree lstsq r lamb R sigma dt picard
        (fun m => S m ⟨N - k, by omega⟩) (fun m => dW m ⟨N - k, by omega⟩)
        (eus_run degree lstsq r lamb R sigma dt picard payoff S dW k).1

/-- Backward sweep of the American spread solver; after the full sweep the
second component is `Z[:, 1]`, written by the final iteration `i = 1`. -/
def ams_run (degree : ℕ) {M N : ℕ} (lstsq : LstsqFun (degree + 1))
    (r lamb R sigma dt : ℚ) (picard : ℕ) (payoff : ℚ → ℚ)
    (S : Fin M → Fin (N + 2) → ℚ) (dW : Fin M → Fin (N + 1) → ℚ) :
    ℕ → Vec M × Vec M
  | 0 => ((fun m => payoff (S m (Fin.last (N + 1)))), fun _ => 0)
  | k + 1 =>
      ams_step degree lstsq r lamb R sigma dt picard payoff
        (fun m => S m ⟨N - k, by omega⟩) (fun m => dW m ⟨N - k, by omega⟩)
        (ams_run degree lstsq r lamb R sigma dt picard payoff S dW k).1

/-- `BSDEOptionPricingEuropeanSpread._bsde_solver`: per batch the mean of
`Y[:, 0]`; the returned pair is literally `(Y0_samples, 0)`. -/
def eus_bsde_solver (degree : ℕ) {M N : ℕ} (lstsq : LstsqFun (degree + 1))
    (rexp : ℚ → ℚ) (S0 K K2 r mu sigma dt R : ℚ) (picard : ℕ)
    (dWs : List (Fin M → Fin (N + 1) → ℚ)) : List ℚ × ℚ :=
  (dWs.map fun dW =>
    npMean (eus_run degree lstsq r (lamb_of mu r sigma) R sigma dt picard
      (eus_spread_payoff K K2)
      (generate_stock_paths rexp S0 mu sigma dt dW) dW N).1, 0)

/-- Per-batch mean of `Y[:, 0]` of the American spread solver
(line 258 `Y0_samples[k] = np.mean(Y[:, 0])`). -/
def ams_Y0_batch (degree : ℕ) {M N : ℕ} (lstsq : LstsqFun (degree + 1))
    (rexp : ℚ → ℚ) (S0 K K2 r mu sigma dt R : ℚ) (picard : ℕ)
    (dW : Fin M → Fin (N + 1) → ℚ) : ℚ :=
  npMean (ams_run degree lstsq r (lamb_of mu r sigma) R sigma dt picard
    (ams_spread_payoff K K2)
    (generate_stock_paths rexp S0 mu sigma dt dW) dW N).1

/-- Per-batch mean of `Z[:, 1]` of the American spread solver
(line 259 `Z0_samples[k] = np.mean(Z[:, 1])`); the solver computes this
value into `Z0_samples` for every batch. -/
def ams_Z0_batch (degree : ℕ) {M N : ℕ} (lstsq : LstsqFun (degree + 1))
    (rexp : ℚ → ℚ) (S0 K K2 r mu sigma dt R : ℚ) (picard : ℕ)
    (dW : Fin M → Fin (N + 1) → ℚ) : ℚ :=
  npMean (ams_run degree lstsq r (lamb_of mu r sigma) R sigma dt picard
    (ams_spread_payoff K K2)
    (generate_stock_paths rexp S0 mu sigma dt dW) dW N).2

/-- `BSDEOptionPricingAmericanSpread._bsde_solver`: although line 259 fills
`Z0_samples`, line 262 returns `Y0_samples, 0`, so the second component is
the scalar 0, not the hedge batch array. -/
def ams_bsde_solver (degree : ℕ) {M N : ℕ} (lstsq : LstsqFun (degree + 1))
    (rexp : ℚ → ℚ) (S0 K K2 r mu sigma dt R : ℚ) (picard : ℕ)
    (dWs : List (Fin M → Fin (N + 1) → ℚ)) : List ℚ × ℚ :=
  (dWs.map (ams_Y0_batch degree lstsq rexp S0 K K2 r mu sigma dt R picard), 0)

/-- `BSDEOptionPricingEuropean._confidence_interval`: mean, np.std, and the
pair of rounded bounds (the two-element list `CI` of the source). -/
def confidence_interval (ppf sqrtf : ℚ → ℚ) (M : ℕ) (lower : ℚ)
    (sample : List ℚ) : ℚ × ℚ × (ℚ × ℚ) :=
  let mean_sample := npMeanL sample
  let std_sample := sqrtf (npVar sample)
  let upper := mean_sample + ppf (1 - lower / 2) * std_sample / sqrtf M
  let lower_b := mean_sample - ppf (1 - lower / 2) * std_sample / sqrtf M
  (mean_sample, std_sample, (round4 lower_b, round4 upper))

/-- The property of the external solver `np.linalg.lstsq` the claims rely
on: applied to the Gram matrix `X'X` and right-hand side `X'y` it returns
an exact solution of the normal equations.  In exact arithmetic the true
`np.linalg.lstsq` has this property, because `X'y` lies in the column space
of `X'X`, so the least-squares residual of the square system is zero. -/
def solves_normal_equations (degree M : ℕ) (lstsq : LstsqFun (degree + 1)) : Prop :=
  ∀ s y : Vec M,
    ((generate_regression degree s).transpose * generate_regression degree s).mulVec
        (lstsq ((generate_regression degree s).transpose * generate_regression degree s)
          ((generate_regression degree s).transpose.mulVec y)) =
      (generate_regression degree s).transpose.mulVec y

/-- Concrete witness instantiation of the external least-squares solver,
adequate for single-path (M = 1), degree-1 configurations. -/
def lstsqW : LstsqFun 2 := fun _ b => ![b 0, 0]

/-- Column 0 of every design matrix is the zeroth Laguerre polynomial,
identically 1. -/
theorem generate_regression_col0 (degree : ℕ) {M : ℕ} (s : Vec M) (m : Fin M) :
    generate_regression degree s m 0 = 1 := rfl

/-- Row 0 of the normal equations: with the constant zeroth basis column,
any exact solution has fitted values whose path sum equals the path sum of
the response vector. -/
theorem sum_mulVec_of_normal_eq (degree : ℕ) {M : ℕ} (s y : Vec M)
    (alpha : Fin (degree + 1) → ℚ)
    (h : ((generate_regression degree s).transpose * generate_regression degree s).mulVec
          alpha = (generate_regression degree s).transpose.mulVec y) :
    ∑ m, (generate_regression degree s).mulVec alpha m = ∑ m, y m := by
  have h0 := congrFun h 0
  rw [← Matrix.mulVec_mulVec] at h0
  simpa [Matrix.mulVec, Matrix.dotProduct, Matrix.transpose_apply,
    generate_regression, laguerre] using h0

/-- The path sum after a European backward step is the discounted path sum
of the previous column. -/
theorem sum_eu_step (degree : ℕ) {M : ℕ} (lstsq : LstsqFun (degree + 1))
    (hl : solves_normal_equations degree M lstsq) (disc : ℚ) (s y : Vec M) :
    ∑ m, eu_step degree lstsq disc s y m = disc * ∑ m, y m := by
  unfold eu_step
  rw [← Finset.sum_mul, sum_mulVec_of_normal_eq degree s y _ (hl s y)]
  ring

/-- The path sum after an American backward step dominates the discounted
path sum of the previous column. -/
theorem sum_am_step_ge (degree : ℕ) {M : ℕ} (lstsq : LstsqFun (degree + 1))
    (hl : solves_normal_equations degree M lstsq) (disc : ℚ) (payoff : ℚ → ℚ)
    (s y : Vec M) :
    disc * ∑ m, y m ≤ ∑ m, am_step degree lstsq disc payoff s y m := by
  unfold am_step
  calc disc * ∑ m, y m
      = ∑ m, (generate_regression degree s).mulVec
          (lstsq ((generate_regression degree s).transpose * generate_regression degree s)
            ((generate_regression degree s).transpose.mulVec y)) m * disc := by
        rw [← Finset.sum_mul, sum_mulVec_of_normal_eq degree s y _ (hl s y)]; ring
    _ ≤ _ := Finset.sum_le_sum fun m _ => le_max_left _ _

/-- Backward-sweep invariant: with an exact normal-equation solver and a
nonnegative discount factor, the American value column dominates the
European one in path sum after any number of backward steps. -/
theorem sum_eu_cols_le_sum_am_cols (degree : ℕ) {M N : ℕ}
    (lstsq : LstsqFun (degree + 1)) (rexp : ℚ → ℚ) (r dt : ℚ) (payoff : ℚ → ℚ)
    (S : Fin M → Fin (N + 2) → ℚ)
    (hl : solves_normal_equations degree M lstsq) (hdisc : 0 ≤ rexp (-r * dt)) (k : ℕ) :
    ∑ m, eu_cols degree lstsq rexp r dt payoff S k m ≤
      ∑ m, am_cols degree lstsq rexp r dt payoff S k m := by
  induction k with
  | zero => exact le_of_eq rfl
  | succ k ih =>
      calc ∑ m, eu_cols degree lstsq rexp r dt payoff S (k + 1) m
          = rexp (-r * dt) * ∑ m, eu_cols degree lstsq rexp r dt payoff S k m :=
            sum_eu_step degree lstsq hl _ _ _
        _ ≤ rexp (-r * dt) * ∑ m, am_cols degree lstsq rexp r dt payoff S k m :=
            mul_le_mul_of_nonneg_left ih hdisc
        _ ≤ ∑ m, am_cols degree lstsq rexp r dt payoff S (k + 1) m :=
            sum_am_step_ge degree lstsq hl _ _ _ _

/-- Concrete witness solver is exact on single-path, degree-1 systems. -/
theorem lstsqW_solves : solves_normal_equations 1 1 lstsqW := by
  intro s y
  funext j
  fin_cases j <;>
    simp [lstsqW, generate_regression, laguerre, Matrix.mulVec, Matrix.dotProduct,
      Matrix.transpose_apply, Matrix.mul_apply, Fin.sum_univ_succ]

/-- Claim C1: in the plain European variant, for every configuration and
every simulated path ensemble, each backward step i = N..1 sets Y[:, i-1]
to exp(-r*dt) times X@alpha, where X is the Laguerre basis matrix of
S[:, i] and alpha is the least-squares solution of the normal equations
X'X alpha = X'Y[:, i] (which the rank-deficiency-tolerant solver satisfies
exactly, the system being consistent), and the batch estimate is the mean
of Y[:, 0] over the M paths. -/
theorem C1_european_backward_step (degree : ℕ) {M N : ℕ}
    (lstsq : LstsqFun (degree + 1)) (rexp : ℚ → ℚ) (S0 r mu sigma dt : ℚ)
    (payoff : ℚ → ℚ) (dW : Fin M → Fin (N + 1) → ℚ) (i : ℕ)
    (hl : solves_normal_equations degree M lstsq) (hi1 : 1 ≤ i) (hiN : i ≤ N) :
    let S := generate_stock_paths rexp S0 mu sigma dt dW
    let X := generate_regression degree fun m => S m ⟨i, by omega⟩
    let alpha := lstsq (X.transpose * X)
      (X.transpose.mulVec (eu_Y degree lstsq rexp r dt payoff S i))
    (eu_Y degree lstsq rexp r dt payoff S (i - 1) =
        fun m => X.mulVec alpha m * rexp (-r * dt)) ∧
      (X.transpose * X).mulVec alpha =
        X.transpose.mulVec (eu_Y degree lstsq rexp r dt payoff S i) ∧
      eu_batch degree lstsq rexp S0 r mu sigma dt payoff dW =
        npMean (eu_Y degree lstsq rexp r dt payoff S 0) := by
  intro S X alpha
  refine ⟨?_, hl _ _, rfl⟩
  show eu_cols degree lstsq rexp r dt payoff S (N - (i - 1)) = _
  have hk : N - (i - 1) = (N - i) + 1 := by omega
  rw [hk]
  show eu_step degree lstsq (rexp (-r * dt))
      (fun m => S m ⟨N - (N - i), by omega⟩)
      (eu_cols degree lstsq rexp r dt payoff S (N - i)) = _
  have hcol : (fun m => S m ⟨N - (N - i), by omega⟩) = fun m => S m ⟨i, by omega⟩ := by
    funext m
    congr 1
    ext
    show N - (N - i) = i
    omega
  rw [hcol]
  rfl

/-- Witness for C1 at a concrete configuration: one path, one time step,
degree 1, unit parameters. -/
theorem C1_european_backward_step_witness :
    solves_normal_equations 1 1 lstsqW ∧
    (let S := generate_stock_paths (fun _ => 1) 1 0 1 1
      ((fun _ _ => 0) : Fin 1 → Fin 2 → ℚ)
     let X := generate_regression 1 fun m => S m ⟨1, by omega⟩
     let alpha := lstsqW (X.transpose * X)
       (X.transpose.mulVec (eu_Y 1 lstsqW (fun _ => 1) 0 1 (fun s => max (s - 1) 0) S 1))
     (eu_Y 1 lstsqW (fun _ => 1) 0 1 (fun s => max (s - 1) 0) S (1 - 1) =
         fun m => X.mulVec alpha m * (fun _ : ℚ => (1 : ℚ)) (-0 * 1)) ∧
       (X.transpose * X).mulVec alpha =
         X.transpose.mulVec (eu_Y 1 lstsqW (fun _ => 1) 0 1 (fun s => max (s - 1) 0) S 1) ∧
       eu_batch 1 lstsqW (fun _ => 1) 1 0 0 1 1 (fun s => max (s - 1) 0)
           ((fun _ _ => 0) : Fin 1 → Fin 2 → ℚ) =
         npMean (eu_Y 1 lstsqW (fun _ => 1) 0 1 (fun s => max (s - 1) 0) S 0)) :=
  ⟨lstsqW_solves,
    C1_european_backward_step 1 lstsqW (fun _ => 1) 1 0 0 1 1 (fun s => max (s - 1) 0)
      ((fun _ _ => 0) : Fin 1 → Fin 2 → ℚ) 1 lstsqW_solves (le_refl 1) (le_refl 1)⟩

/-- Monotonicity of the path mean in the path sum (the divisor M is a
nonnegative cast of a natural number). -/
theorem npMean_le_npMean {M : ℕ} {u v : Vec M} (h : ∑ m, u m ≤ ∑ m, v m) :
    npMean u ≤ npMean v := by
  unfold npMean
  rcases Nat.eq_zero_or_pos M with hM | hM
  · subst hM; simp
  · have hMQ : (0 : ℚ) < M := by exact_mod_cast hM
    exact (div_le_div_right hMQ).mpr h

/-- Mapping two pointwise-comparable functions over one list gives
componentwise-comparable lists. -/
theorem forall2_le_map {α : Type} (f g : α → ℚ) (h : ∀ a, f a ≤ g a) :
    ∀ l : List α, List.Forall₂ (· ≤ ·) (l.map f) (l.map g)
  | [] => List.Forall₂.nil
  | a :: l => List.Forall₂.cons (h a) (forall2_le_map f g h l)

/-- Componentwise-comparable lists have comparable sums. -/
theorem sum_le_sum_of_forall2 {l₁ l₂ : List ℚ}
    (h : List.Forall₂ (· ≤ ·) l₁ l₂) : l₁.sum ≤ l₂.sum := by
  induction h with
  | nil => exact le_refl 0
  | cons hab _ ih => simpa using add_le_add hab ih

/-- Componentwise-comparable lists have comparable means. -/
theorem npMeanL_le_of_forall2 {l₁ l₂ : List ℚ}
    (h : List.Forall₂ (· ≤ ·) l₁ l₂) : npMeanL l₁ ≤ npMeanL l₂ := by
  unfold npMeanL
  rw [h.length_eq]
  rcases Nat.eq_zero_or_pos l₂.length with hL | hL
  · rw [hL]; simp
  · have hLQ : (0 : ℚ) < l₂.length := by exact_mod_cast hL
    exact (div_le_div_right hLQ).mpr (sum_le_sum_of_forall2 h)

/-- Claim C9: for identical configuration and identical random draws in
every batch, the batch estimates of the American variant dominate those of
the plain European variant componentwise, and so does their average (the
reported price estimate).  Hypotheses: the external least-squares solver
returns exact solutions of the (consistent) normal equations, and the
discount factor exp(-r*dt) is nonnegative, as the real exponential is. -/
theorem C9_american_price_ge_european (degree : ℕ) {M N : ℕ}
    (lstsq : LstsqFun (degree + 1)) (rexp : ℚ → ℚ) (S0 r mu sigma dt : ℚ)
    (payoff : ℚ → ℚ) (dWs : List (Fin M → Fin (N + 1) → ℚ))
    (hl : solves_normal_equations degree M lstsq) (hdisc : 0 ≤ rexp (-r * dt)) :
    List.Forall₂ (· ≤ ·)
        (eu_bsde_solver degree lstsq rexp S0 r mu sigma dt payoff dWs).1
        (am_bsde_solver degree lstsq rexp S0 r mu sigma dt payoff dWs).1 ∧
      npMeanL (eu_bsde_solver degree lstsq rexp S0 r mu sigma dt payoff dWs).1 ≤
        npMeanL (am_bsde_solver degree lstsq rexp S0 r mu sigma dt payoff dWs).1 := by
  have hbatch : ∀ dW : Fin M → Fin (N + 1) → ℚ,
      eu_batch degree lstsq rexp S0 r mu sigma dt payoff dW ≤
        am_batch degree lstsq rexp S0 r mu sigma dt payoff dW := fun dW =>
    npMean_le_npMean
      (sum_eu_cols_le_sum_am_cols degree lstsq rexp r dt payoff
        (generate_stock_paths rexp S0 mu sigma dt dW) hl hdisc N)
  have hf2 := forall2_le_map _ _ hbatch dWs
  exact ⟨hf2, npMeanL_le_of_forall2 hf2⟩

/-- Witness for C9 at a concrete configuration: one path, one time step,
degree 1, unit discount, a single batch. -/
theorem C9_american_price_ge_european_witness :
    solves_normal_equations 1 1 lstsqW ∧ (0 : ℚ) ≤ (fun _ : ℚ => (1 : ℚ)) (-0 * 1) ∧
    (List.Forall₂ (· ≤ ·)
        (eu_bsde_solver 1 lstsqW (fun _ => 1) 1 0 0 1 1 (fun s => max (s - 1) 0)
          [((fun _ _ => 0) : Fin 1 → Fin 2 → ℚ)]).1
        (am_bsde_solver 1 lstsqW (fun _ => 1) 1 0 0 1 1 (fun s => max (s - 1) 0)
          [((fun _ _ => 0) : Fin 1 → Fin 2 → ℚ)]).1 ∧
      npMeanL (eu_bsde_solver 1 lstsqW (fun _ => 1) 1 0 0 1 1 (fun s => max (s - 1) 0)
          [((fun _ _ => 0) : Fin 1 → Fin 2 → ℚ)]).1 ≤
        npMeanL (am_bsde_solver 1 lstsqW (fun _ => 1) 1 0 0 1 1 (fun s => max (s - 1) 0)
          [((fun _ _ => 0) : Fin 1 → Fin 2 → ℚ)]).1) :=
  ⟨lstsqW_solves, by norm_num,
    C9_american_price_ge_european 1 lstsqW (fun _ => 1) 1 0 0 1 1 (fun s => max (s - 1) 0)
      [((fun _ _ => 0) : Fin 1 → Fin 2 → ℚ)] lstsqW_solves (by norm_num)⟩

/-- The first statement of every spread solver run in the Except monad:
`Y[:, -1] = self._payoff_func(S[:, -1])` evaluates the payoff at the
terminal price column, propagating the first raised exception. -/
def terminal_init (payoffE : ℚ → Except PyError ℚ) {M N : ℕ}
    (S : Fin M → Fin (N + 2) → ℚ) : Except PyError (List ℚ) :=
  (List.ofFn fun m => S m (Fin.last (N + 1))).mapM payoffE

/-- np.min of a single-entry array is that entry. -/
theorem npMin_one (v : Vec 1) : npMin v = v 0 := by
  show Finset.univ.inf' Finset.univ_nonempty v = v 0
  apply le_antisymm
  · exact Finset.inf'_le _ (Finset.mem_univ 0)
  · apply Finset.le_inf'
    intro b _
    fin_cases b
    exact le_refl _

/-- np.min of a two-entry array is the minimum of its entries. -/
theorem npMin_two (v : Vec 2) : npMin v = min (v 0) (v 1) := by
  show Finset.univ.inf' Finset.univ_nonempty v = min (v 0) (v 1)
  apply le_antisymm
  · exact le_min (Finset.inf'_le _ (Finset.mem_univ 0)) (Finset.inf'_le _ (Finset.mem_univ 1))
  · apply Finset.le_inf'
    intro b _
    fin_cases b
    · exact min_le_left _ _
    · exact min_le_right _ _

/-- Claim C2 (code defect): at a concrete configuration (degree 1, one
path, one step, K = 1, K2 = 2, rates 0, sigma = dt = 1, picard 1, constant
price 3, unit final increment) the American spread solver returns the
literal scalar 0 as its second component even though the per-batch mean of
Z[:, 1] computed into Z0_samples is 1 ≠ 0: line 262 `return Y0_samples, 0`
drops the hedge batch array the claim says is returned. -/
theorem C2_hedge_sequence_dropped :
    ams_bsde_solver 1 lstsqW (fun _ => 3) 1 1 2 0 0 1 1 0 1
        [((fun _ j => (j.val : ℚ)) : Fin 1 → Fin 2 → ℚ)] = ([1], 0) ∧
      ams_Z0_batch 1 lstsqW (fun _ => 3) 1 1 2 0 0 1 1 0 1
        ((fun _ j => (j.val : ℚ)) : Fin 1 → Fin 2 → ℚ) = 1 := by
  have hS : generate_stock_paths (fun _ => 3) 1 0 1 1
      ((fun _ j => (j.val : ℚ)) : Fin 1 → Fin 2 → ℚ) = fun _ _ => 3 := by
    funext m j
    induction j using Fin.cases with
    | zero => norm_num [generate_stock_paths]
    | succ n => norm_num [generate_stock_paths]
  have hrun : ams_run 1 lstsqW 0 (lamb_of 0 0 1) 0 1 1 1 (ams_spread_payoff 1 2)
      (fun _ _ => 3) ((fun _ j => (j.val : ℚ)) : Fin 1 → Fin 2 → ℚ) 1 =
      ((fun _ => 1), (fun _ => 1)) := by
    simp only [ams_run, ams_step, eus_step, lamb_of]
    norm_num [ams_spread_payoff, spread_driver, generate_regression, laguerre, lstsqW,
      Matrix.mulVec, Matrix.dotProduct, Matrix.transpose_apply, Matrix.mul_apply,
      Matrix.of_apply, Fin.sum_univ_succ, Function.iterate_one, npMin_one]
    constructor <;> funext m <;>
      norm_num [Matrix.vecHead, Function.comp, laguerre]
  constructor
  · simp only [ams_bsde_solver, List.map_cons, List.map_nil, ams_Y0_batch]
    rw [hS]
    rw [hrun]
    norm_num [npMean, Fin.sum_univ_one]
  · simp only [ams_Z0_batch]
    rw [hS]
    rw [hrun]
    norm_num [npMean, Fin.sum_univ_one]

/-- Claim C3 (code defect): the generator term of the Picard update applies
`np.min(Y[:, i] - Z[:, i]/sigma, 0)`, whose second positional argument is
the axis, i.e. the scalar minimum over the path dimension broadcast to all
paths — not the claimed elementwise minimum with the zero vector.  With
E = 0, Z = 0, r = lamb = 0, R = sigma = dt = 1 and Y[:, i] = (1, -1) the
source update yields (1, 1) while the claimed pointwise update yields
(0, 1): path 0 is contaminated by path 1's minimum. -/
theorem C3_generator_min_is_path_reduction :
    spread_driver 0 0 1 1 1 ((fun _ => 0) : Vec 2) ![1, -1] ((fun _ => 0) : Vec 2) =
        ![1, 1] ∧
      spread_driver_pointwise 0 0 1 1 1 ((fun _ => 0) : Vec 2) ![1, -1]
          ((fun _ => 0) : Vec 2) = ![0, 1] := by
  constructor <;> funext m <;> fin_cases m <;>
    norm_num [spread_driver, spread_driver_pointwise, npMin_two]

/-- Claim C4 is false as stated: with M = 1, N = 1, two increment matrices
that agree in column 0 (the only increments the claim says are used) give
different prices in column 2 — a column the claimed M×(N+1) shape does not
even have — so the simulator output has N+2 columns and the (N+1)-st
increment enters the final column. -/
theorem C4_counterexample :
    ((fun _ _ => 0 : Fin 1 → Fin 2 → ℚ) 0 0 =
        ((fun _ j => (j.val : ℚ)) : Fin 1 → Fin 2 → ℚ) 0 0) ∧
      generate_stock_paths id 1 0 1 1 ((fun _ _ => 0) : Fin 1 → Fin 2 → ℚ) 0 2 ≠
        generate_stock_paths id 1 0 1 1 ((fun _ j => (j.val : ℚ)) : Fin 1 → Fin 2 → ℚ) 0 2 := by
  constructor
  · norm_num
  · simp only [generate_stock_paths]
    rw [show (2 : Fin 3) = Fin.succ 1 from by decide]
    simp only [Fin.cases_succ]
    rw [show Finset.Iic (1 : Fin (1 + 1)) = {0, 1} from by decide]
    rw [Finset.sum_insert (by decide), Finset.sum_insert (by decide),
      Finset.sum_singleton, Finset.sum_singleton]
    norm_num

/-- Claim C4 amended: the simulator returns an M×(N+2) price matrix (the
result type records the shape); its initial column is identically S0
because exp 0 = 1, and for every n ≤ N column n+1 equals S0 times exp of
the cumulative sum of the first n+1 log-returns, so all N+1 Gaussian
increments drawn are used. -/
theorem C4_amended_paths (rexp : ℚ → ℚ) (S0 mu sigma dt : ℚ) {M N : ℕ}
    (dW : Fin M → Fin (N + 1) → ℚ) (hexp : rexp 0 = 1) (m : Fin M) (n : Fin (N + 1)) :
    generate_stock_paths rexp S0 mu sigma dt dW m 0 = S0 ∧
      generate_stock_paths rexp S0 mu sigma dt dW m n.succ =
        S0 * rexp (∑ k ∈ Finset.Iic n, ((mu - sigma ^ 2 / 2) * dt + sigma * dW m k)) := by
  constructor
  · simp [generate_stock_paths, hexp]
  · simp [generate_stock_paths]

/-- Witness for the amended C4 at a concrete input, with an exp-like
function satisfying exp 0 = 1. -/
theorem C4_amended_paths_witness :
    (fun q : ℚ => 1 + q) 0 = 1 ∧
      (generate_stock_paths (fun q : ℚ => 1 + q) 1 0 1 1
          ((fun _ j => (j.val : ℚ)) : Fin 1 → Fin 2 → ℚ) 0 0 = 1 ∧
        generate_stock_paths (fun q : ℚ => 1 + q) 1 0 1 1
            ((fun _ j => (j.val : ℚ)) : Fin 1 → Fin 2 → ℚ) 0 (Fin.succ 0) =
          1 * (fun q : ℚ => 1 + q)
            (∑ k ∈ Finset.Iic (0 : Fin 2),
              ((0 - 1 ^ 2 / 2) * 1 + 1 * ((fun _ j => (j.val : ℚ)) : Fin 1 → Fin 2 → ℚ) 0 k))) :=
  ⟨by norm_num,
    C4_amended_paths (fun q => 1 + q) 1 0 1 1
      ((fun _ j => (j.val : ℚ)) : Fin 1 → Fin 2 → ℚ) (by norm_num) 0 0⟩

/-- At any fixed valid non-degree configuration, construction succeeds
exactly for nonnegative degrees. -/
theorem init_validate_concrete (degree : ℤ) :
    init_validate 100 100 1 (1/20) (1/5) 50 1000 degree "call" =
      if degree < 0 then
        Except.error (PyError.valueError "degree must be a non-negative integer.")
      else Except.ok () := by
  unfold init_validate
  rw [if_neg (by norm_num : ¬ (100 : ℚ) ≤ 0), if_neg (by norm_num : ¬ (100 : ℚ) ≤ 0),
    if_neg (by norm_num : ¬ (1 : ℚ) ≤ 0), if_neg (by norm_num : ¬ (1/5 : ℚ) ≤ 0),
    if_neg (by norm_num : ¬ (50 : ℤ) ≤ 0), if_neg (by norm_num : ¬ (1000 : ℤ) ≤ 0)]
  split_ifs with h
  · rfl
  · rfl

/-- Claim C5 is false: construction succeeds with degree = 0 (the
constructor only rejects negative degrees), while the basis expander's own
range check — executed on every call — rejects degree = 0.  The
degree-range error is per call, not at configuration time. -/
theorem C5_counterexample :
    init_validate 100 100 1 (1/20) (1/5) 50 1000 0 "call" = Except.ok () ∧
      generate_regression_check 0 =
        Except.error "Invalid degree on Polynomial basis, choose between 1 and 10" := by
  constructor
  · rw [init_validate_concrete]
    rfl
  · rfl

/-- Claim C5 amended: the constructor accepts every nonnegative degree
(including 0 and values above 20), and the [1, 20] range check is enforced
by `_generate_regression` on every basis-expansion call instead, succeeding
exactly for degrees between 1 and 20. -/
theorem C5_amended_degree_validation (degree : ℤ) :
    (init_validate 100 100 1 (1/20) (1/5) 50 1000 degree "call" = Except.ok () ↔
        0 ≤ degree) ∧
      (generate_regression_check degree = Except.ok () ↔ 1 ≤ degree ∧ degree ≤ 20) := by
  constructor
  · rw [init_validate_concrete]
    split_ifs with h
    · constructor
      · intro hh; cases hh
      · intro hh; omega
    · constructor
      · intro _; omega
      · intro _; rfl
  · unfold generate_regression_check
    split_ifs with h
    · constructor
      · intro hh; cases hh
      · intro hh; omega
    · constructor
      · intro _; omega
      · intro _; rfl

/-- Claim C6 is false for the European spread variant: its call branch
shorts two calls at K2, so at S = 210 with K = 90, K2 = 105 (S ≥ 0,
0 < K ≤ K2) the payoff is -90 < 0, violating the claimed lower bound. -/
theorem C6_counterexample : eus_spread_payoff 90 105 210 < 0 := by
  norm_num [eus_spread_payoff]

/-- Claim C6 amended: the American spread payoff is bounded,
0 ≤ payoff ≤ K2 - K, for all prices whenever K ≤ K2; the European spread
payoff (short two calls at K2) satisfies only the upper bound K2 - K and
is unbounded below. -/
theorem C6_amended_spread_payoff_bounds (K K2 S : ℚ) (hS : 0 ≤ S) (hK : 0 < K)
    (hKK2 : K ≤ K2) :
    (0 ≤ ams_spread_payoff K K2 S ∧ ams_spread_payoff K K2 S ≤ K2 - K) ∧
      eus_spread_payoff K K2 S ≤ K2 - K := by
  unfold ams_spread_payoff eus_spread_payoff
  rcases le_total S K2 with h | h
  · have e2 : max (S - K2) 0 = 0 := max_eq_right (by linarith)
    rw [e2]
    rcases le_total S K with h2 | h2
    · have e1 : max (S - K) 0 = 0 := max_eq_right (by linarith)
      rw [e1]
      refine ⟨⟨by norm_num, by linarith⟩, by linarith⟩
    · have e1 : max (S - K) 0 = S - K := max_eq_left (by linarith)
      rw [e1]
      refine ⟨⟨by linarith, by linarith⟩, by linarith⟩
  · have e2 : max (S - K2) 0 = S - K2 := max_eq_left (by linarith)
    have e1 : max (S - K) 0 = S - K := max_eq_left (by linarith)
    rw [e1, e2]
    refine ⟨⟨by linarith, by linarith⟩, by linarith⟩

/-- Witness for the amended C6 at K = 90, K2 = 105, S = 100. -/
theorem C6_amended_spread_payoff_bounds_witness :
    (0:ℚ) ≤ 100 ∧ (0:ℚ) < 90 ∧ (90:ℚ) ≤ 105 ∧
      ((0 ≤ ams_spread_payoff 90 105 100 ∧ ams_spread_payoff 90 105 100 ≤ 105 - 90) ∧
        eus_spread_payoff 90 105 100 ≤ 105 - 90) :=
  ⟨by norm_num, by norm_num, by norm_num,
    C6_amended_spread_payoff_bounds 90 105 100 (by norm_num) (by norm_num) (by norm_num)⟩

/-- Claim C7: the confidence estimator returns the sample mean, the sample
standard deviation sqrt(variance), and the two-sided interval
[mean - z*std/sqrt(M), mean + z*std/sqrt(M)] with z = ppf(1 - lower/2):
the half-width is scaled by the square root of the configured path count M
(the batch-array length never enters), and both bounds are rounded to 4
decimal digits. -/
theorem C7_confidence_interval_shape (ppf sqrtf : ℚ → ℚ) (M : ℕ) (lower : ℚ)
    (sample : List ℚ) :
    confidence_interval ppf sqrtf M lower sample =
      (npMeanL sample, sqrtf (npVar sample),
        (round4 (npMeanL sample - ppf (1 - lower / 2) * sqrtf (npVar sample) / sqrtf M),
          round4 (npMeanL sample + ppf (1 - lower / 2) * sqrtf (npVar sample) / sqrtf M))) :=
  rfl

/-- Rounding to 4 decimal digits moves a rational by at most 1/20000. -/
theorem round4_close (q : ℚ) : q - 1/20000 ≤ round4 q ∧ round4 q ≤ q + 1/20000 := by
  have h := abs_sub_round (q * 10000)
  rw [abs_sub_le_iff] at h
  obtain ⟨h1, h2⟩ := h
  unfold round4
  constructor <;> linarith

/-- Claim C8 is false: rounding the bounds to 4 decimal digits can push the
upper bound strictly below the mean.  On the constant batch array
[1/100000] the standard deviation is exactly 0 (whatever quantile z is
used, here a stand-in value 2 for norm.ppf(0.975), and the square root
taken as the identity, exact at the two points 0 and 1 where it is
evaluated), so both bounds equal the mean before rounding; rounding sends
them to 0, strictly below the returned mean 1/100000. -/
theorem C8_counterexample :
    (confidence_interval (fun _ => 2) id 1 (1/20) [1/100000]).2.2.2 <
      (confidence_interval (fun _ => 2) id 1 (1/20) [1/100000]).1 := by
  norm_num [confidence_interval, npMeanL, npVar, round4, round_eq]

/-- Claim C8 amended: the pre-rounding bounds always bracket the mean,
given the facts true of the external routines at the evaluated points
(norm.ppf(1 - lower/2) ≥ 0 for lower in (0,1), np.std ≥ 0, sqrt(M) > 0);
after rounding to 4 digits each bound can cross the mean by at most the
rounding quantum 1/20000. -/
theorem C8_amended_interval_brackets_mean (ppf sqrtf : ℚ → ℚ) (M : ℕ) (lower : ℚ)
    (sample : List ℚ) (hz : 0 ≤ ppf (1 - lower / 2))
    (hstd : 0 ≤ sqrtf (npVar sample)) (hM : 0 < sqrtf M) :
    (npMeanL sample - ppf (1 - lower / 2) * sqrtf (npVar sample) / sqrtf M ≤
        npMeanL sample ∧
      npMeanL sample ≤
        npMeanL sample + ppf (1 - lower / 2) * sqrtf (npVar sample) / sqrtf M) ∧
      ((confidence_interval ppf sqrtf M lower sample).2.2.1 ≤
          npMeanL sample + 1/20000 ∧
        npMeanL sample ≤ (confidence_interval ppf sqrtf M lower sample).2.2.2 + 1/20000) := by
  have hw : 0 ≤ ppf (1 - lower / 2) * sqrtf (npVar sample) / sqrtf M :=
    div_nonneg (mul_nonneg hz hstd) hM.le
  have hlo := round4_close
    (npMeanL sample - ppf (1 - lower / 2) * sqrtf (npVar sample) / sqrtf M)
  have hhi := round4_close
    (npMeanL sample + ppf (1 - lower / 2) * sqrtf (npVar sample) / sqrtf M)
  refine ⟨⟨by linarith, by linarith⟩, ?_, ?_⟩
  · show round4 _ ≤ _
    linarith [hlo.2]
  · show _ ≤ round4 _ + 1/20000
    linarith [hhi.1]

/-- Witness for the amended C8 at the counterexample configuration. -/
theorem C8_amended_interval_brackets_mean_witness :
    (0:ℚ) ≤ (fun _ : ℚ => (2:ℚ)) (1 - (1/20) / 2) ∧
      (0:ℚ) ≤ id (npVar [1/100000]) ∧ (0:ℚ) < id ((1:ℕ) : ℚ) ∧
      ((npMeanL [1/100000] - (fun _ : ℚ => (2:ℚ)) (1 - (1/20) / 2) * id (npVar [1/100000]) / id ((1:ℕ) : ℚ) ≤
          npMeanL [1/100000] ∧
        npMeanL [1/100000] ≤
          npMeanL [1/100000] + (fun _ : ℚ => (2:ℚ)) (1 - (1/20) / 2) * id (npVar [1/100000]) / id ((1:ℕ) : ℚ)) ∧
        ((confidence_interval (fun _ => 2) id 1 (1/20) [1/100000]).2.2.1 ≤
            npMeanL [1/100000] + 1/20000 ∧
          npMeanL [1/100000] ≤
            (confidence_interval (fun _ => 2) id 1 (1/20) [1/100000]).2.2.2 + 1/20000)) :=
  ⟨by norm_num, by norm_num [npVar, npMeanL], by norm_num,
    C8_amended_interval_brackets_mean (fun _ => 2) id 1 (1/20) [1/100000]
      (by norm_num) (by norm_num [npVar, npMeanL]) (by norm_num)⟩

/-- Claim C10: a payoff string lowercasing to "put" passes the
constructor's normalization (so spread instances with "put" are
constructible), but both spread payoff functions then take the invalid
branch, which reads the nonexistent attribute `option_type`, so every call
fails with an AttributeError — not the intended invalid-option ValueError —
and in particular the terminal-payoff evaluation that starts every solver
run fails; the spread payoff is callable only for "call". -/
theorem C10_spread_put_attribute_error (s : String) (K K2 S : ℚ) {M N : ℕ}
    (Smat : Fin (M + 1) → Fin (N + 2) → ℚ) (hput : pyLower s = "put") :
    get_opt_payoff s = Except.ok "put" ∧
      eus_payoff_func "put" K K2 S = Except.error (PyError.attributeError
        "BSDEOptionPricingEuropeanSpread object has no attribute option_type") ∧
      ams_payoff_func "put" K K2 S = Except.error (PyError.attributeError
        "BSDEOptionPricingAmericanSpread object has no attribute option_type") ∧
      eus_payoff_func "call" K K2 S = Except.ok (eus_spread_payoff K K2 S) ∧
      ams_payoff_func "call" K K2 S = Except.ok (ams_spread_payoff K K2 S) ∧
      terminal_init (ams_payoff_func "put" K K2) Smat = Except.error (PyError.attributeError
        "BSDEOptionPricingAmericanSpread object has no attribute option_type") := by
  refine ⟨?_, rfl, rfl, rfl, rfl, ?_⟩
  · simp [get_opt_payoff, hput]
  · unfold terminal_init
    rw [List.ofFn_succ, List.mapM_cons]
    rfl

/-- Witness for C10 with the mixed-capitalization string "pUt" and a
concrete one-path terminal column. -/
theorem C10_spread_put_attribute_error_witness :
    pyLower "pUt" = "put" ∧
      (get_opt_payoff "pUt" = Except.ok "put" ∧
        eus_payoff_func "put" 1 2 3 = Except.error (PyError.attributeError
          "BSDEOptionPricingEuropeanSpread object has no attribute option_type") ∧
        ams_payoff_func "put" 1 2 3 = Except.error (PyError.attributeError
          "BSDEOptionPricingAmericanSpread object has no attribute option_type") ∧
        eus_payoff_func "call" 1 2 3 = Except.ok (eus_spread_payoff 1 2 3) ∧
        ams_payoff_func "call" 1 2 3 = Except.ok (ams_spread_payoff 1 2 3) ∧
        terminal_init (ams_payoff_func "put" 1 2) ((fun _ _ => 5) : Fin 1 → Fin 2 → ℚ) =
          Except.error (PyError.attributeError
            "BSDEOptionPricingAmericanSpread object has no attribute option_type")) :=
  ⟨rfl, C10_spread_put_attribute_error "pUt" 1 2 3 ((fun _ _ => 5) : Fin 1 → Fin 2 → ℚ) rfl⟩
